import Mathlib

/-!
# Verification of the C-AST core of a C codegen backend

Shallow embedding of the `rustc_codegen_c_ast` crate: the C type universe and
declarator linearization (`ty.rs`), values and expressions (`expr.rs`),
statements (`stmt.rs`), declarations (`decl.rs`), functions (`func.rs`),
modules (`module.rs`), and a box-based pretty-printing layer (`pretty.rs`,
whose underlying engine `rustc_ast_pretty::pp` is external to the repository
and is therefore modelled from the specification of the box primitives).

Rust `panic!`/`unreachable!` paths are modelled as `Option.none` results;
interior mutability (`Cell`/`RefCell`) is modelled by explicit state passing.
-/

set_option maxRecDepth 4000

/-- Alias for `Bool`, needed in signatures of `CTy.*` operations where the
bare name `Bool` would resolve to the constructor `CTy.Bool`. -/
abbrev BoolT := Bool

/-- Signed C integer types (`CIntTy` in `ty.rs`). -/
inductive CIntTy where
  | Isize
  | I8
  | I16
  | I32
  | I64
deriving DecidableEq, Repr

/-- Unsigned C integer types (`CUintTy` in `ty.rs`). -/
inductive CUintTy where
  | Usize
  | U8
  | U16
  | U32
  | U64
deriving DecidableEq, Repr

mutual

/-- C types (`CTy` in `ty.rs`): primitives plus an interned reference to a
compound type.  The interned reference is embedded structurally. -/
inductive CTy where
  | Void
  | Bool
  | Char
  | Int (t : CIntTy)
  | UInt (t : CUintTy)
  | Ref (k : CTyKind)
deriving DecidableEq, Repr

/-- Compound C types (`CTyKind` in `ty.rs`). -/
inductive CTyKind where
  | Pointer (t : CTy)
  | Array (t : CTy) (n : Nat)
deriving DecidableEq, Repr

end

/-- `CIntTy::to_unsigned` in `ty.rs`. -/
def CIntTy.to_unsigned : CIntTy → CUintTy
  | .Isize => .Usize
  | .I8 => .U8
  | .I16 => .U16
  | .I32 => .U32
  | .I64 => .U64

/-- `CIntTy::to_str` in `ty.rs`. -/
def CIntTy.to_str : CIntTy → String
  | .Isize => "size_t"
  | .I8 => "int8_t"
  | .I16 => "int16_t"
  | .I32 => "int32_t"
  | .I64 => "int64_t"

/-- `CIntTy::max_value` in `ty.rs`. -/
def CIntTy.max_value : CIntTy → String
  | .Isize => "SIZE_MAX"
  | .I8 => "INT8_MAX"
  | .I16 => "INT16_MAX"
  | .I32 => "INT32_MAX"
  | .I64 => "INT64_MAX"

/-- `CUintTy::to_str` in `ty.rs`. -/
def CUintTy.to_str : CUintTy → String
  | .Usize => "size_t"
  | .U8 => "uint8_t"
  | .U16 => "uint16_t"
  | .U32 => "uint32_t"
  | .U64 => "uint64_t"

/-- `CUintTy::max_value` in `ty.rs`. -/
def CUintTy.max_value : CUintTy → String
  | .Usize => "SIZE_MAX"
  | .U8 => "UINT8_MAX"
  | .U16 => "UINT16_MAX"
  | .U32 => "UINT32_MAX"
  | .U64 => "UINT64_MAX"

/-- `CTy::is_signed` in `ty.rs`. -/
def CTy.is_signed : CTy → BoolT
  | .Int _ => true
  | _ => false

/-- `CTy::to_unsigned` in `ty.rs`; the `unreachable!()` arm is `none`. -/
def CTy.to_unsigned : CTy → Option CTy
  | .Int t => some (.UInt t.to_unsigned)
  | _ => none

/-- `CTy::to_str` in `ty.rs`; the `unreachable!()` arm for compound types
is `none`. -/
def CTy.to_str : CTy → Option String
  | .Void => some "void"
  | .Bool => some "_Bool"
  | .Char => some "char"
  | .Int t => some t.to_str
  | .UInt t => some t.to_str
  | .Ref _ => none

/-- `CTy::max_value` in `ty.rs`; the `unreachable!()` arm is `none`. -/
def CTy.max_value : CTy → Option String
  | .Int t => some t.max_value
  | .UInt t => some t.max_value
  | _ => none

/-- `CTy::is_primitive` in `ty.rs`. -/
def CTy.is_primitive : CTy → BoolT
  | .Void | .Bool | .Char | .Int _ | .UInt _ => true
  | .Ref _ => false

/-- `CTy::is_array` in `ty.rs`. -/
def CTy.is_array : CTy → BoolT
  | .Ref (.Array _ _) => true
  | _ => false

/-- `CValue` in `expr.rs`: constants, locals, function names. -/
inductive CValue where
  | Scalar (i : Int)
  | Local (i : Nat)
  | Func (name : String)
deriving DecidableEq, Repr

/-- The rendered text of a `CValue` (its `Print` impl in `expr.rs` emits
exactly one word with this text). -/
def CValue.printStr : CValue → String
  | .Scalar i => toString i
  | .Local i => "_" ++ toString i
  | .Func name => name

/-- `DeclaratorPart` in `ty.rs` (`print_declarator`'s local enum). -/
inductive DeclaratorPart where
  | Ident (v : CValue)
  | Ptr
  | ArrayDim (dim : Nat)
  | Lp
  | Rp
deriving DecidableEq, Repr

/-- The word emitted by `DeclaratorPart`'s `Print` impl in `ty.rs`. -/
def DeclaratorPart.printStr : DeclaratorPart → String
  | .Ident v => v.printStr
  | .Ptr => "*"
  | .ArrayDim dim => "[" ++ toString dim ++ "]"
  | .Lp => "("
  | .Rp => ")"

mutual

/-- The `while let CTy::Ref(kind) = ty` loop of `print_declarator` in
`ty.rs`: unwrap compound layers, pushing declarator parts to the front or
back of the deque (modelled as a list iterated front to back), and return
the accumulated parts together with the base type. -/
def declLoop : CTy → List DeclaratorPart → List DeclaratorPart × CTy
  | .Ref kind, parts => declLoopKind kind parts
  | ty, parts => (parts, ty)

/-- One iteration of the loop on a compound layer: push the layer's
declarator part(s) and continue with the unwrapped inner type. -/
def declLoopKind : CTyKind → List DeclaratorPart → List DeclaratorPart × CTy
  | .Pointer t, parts =>
      let parts := DeclaratorPart.Ptr :: parts
      let parts :=
        if t.is_array then DeclaratorPart.Lp :: parts ++ [DeclaratorPart.Rp]
        else parts
      declLoop t parts
  | .Array t dim, parts => declLoop t (parts ++ [DeclaratorPart.ArrayDim dim])

end

/-- The same loop with explicit fuel, one unit per iteration of the source's
`while let`; `none` models non-termination within the given fuel. -/
def declLoopFuel : Nat → CTy → List DeclaratorPart → Option (List DeclaratorPart × CTy)
  | fuel + 1, .Ref (.Pointer t), parts =>
      let parts := DeclaratorPart.Ptr :: parts
      let parts :=
        if t.is_array then DeclaratorPart.Lp :: parts ++ [DeclaratorPart.Rp]
        else parts
      declLoopFuel fuel t parts
  | fuel + 1, .Ref (.Array t dim), parts =>
      declLoopFuel fuel t (parts ++ [DeclaratorPart.ArrayDim dim])
  | 0, .Ref _, _ => none
  | _, ty, parts => some (parts, ty)

mutual

/-- Number of compound layers unwrapped by `print_declarator`'s loop:
the length of the pointer/array spine of a type. -/
def CTy.spineDepth : CTy → Nat
  | .Ref k => k.spineDepth + 1
  | _ => 0

/-- Spine depth of a compound type's inner type, plus its own layer. -/
def CTyKind.spineDepth : CTyKind → Nat
  | .Pointer t => t.spineDepth
  | .Array t _ => t.spineDepth

end

/-- The unwrapped inner type of one loop iteration of `print_declarator`
(the `ty = match kind.0` assignment): the pointee of a pointer layer or the
element type of an array layer. -/
def CTyKind.inner : CTyKind → CTy
  | .Pointer t => t
  | .Array t _ => t

mutual

/-- Does the type contain a pointer layer directly wrapping an array layer
(the one situation in which `print_declarator` parenthesizes)? -/
def CTy.hasPtrToArray : CTy → BoolT
  | .Ref k => k.hasPtrToArray
  | _ => false

/-- `CTyKind.hasPtrToArray`: as `CTy.hasPtrToArray`, on compound types. -/
def CTyKind.hasPtrToArray : CTyKind → Bool
  | .Pointer t => t.is_array || t.hasPtrToArray
  | .Array t _ => t.hasPtrToArray

end

/-! ## The box-based pretty-printing engine

Modelled from the spec: the engine behind `pretty.rs` is the external crate
`rustc_ast_pretty::pp` (not part of this repository), so its box/break
semantics are modelled from §4.4 of the specification: inconsistent boxes
break each break point independently, only as needed for the line to fit;
consistent boxes break all-or-nothing; visual-alignment boxes align
continuation lines to the column where the box opened; soft breaks render as
a space when the enclosing box fits, hard breaks always as a newline, zero
breaks as nothing when the box fits; delimited variants add the delimiter
words and padded break points; broken lines indent by the enclosing box's
base indentation plus the break's offset. -/

/-- A pretty-printer document: the sequence of tokens a `Print` impl pushes
into a `PrinterCtx`, with box structure made explicit. -/
inductive Doc where
  | word (s : String)
  | brk (blank : Nat) (off : Int)
  | hard (off : Int)
  | ibox (ind : Int) (ds : List Doc)
  | cbox (ind : Int) (ds : List Doc)
  | vbox (ds : List Doc)

/-- Addition on `Option Nat`, `none` meaning "infinite width". -/
def optAdd : Option Nat → Option Nat → Option Nat
  | some a, some b => some (a + b)
  | _, _ => none

mutual

/-- Width of a document when rendered flat (on one line); `none` when it
contains a hard break and hence can never be flat. -/
def Doc.flatW : Doc → Option Nat
  | .word s => some s.length
  | .brk blank _ => some blank
  | .hard _ => none
  | .ibox _ ds => Doc.flatWList ds
  | .cbox _ ds => Doc.flatWList ds
  | .vbox ds => Doc.flatWList ds

/-- Flat width of a token sequence. -/
def Doc.flatWList : List Doc → Option Nat
  | [] => some 0
  | d :: ds => optAdd d.flatW (Doc.flatWList ds)

end

/-- Width from the current point to the next break point at this box level
(nested boxes are measured whole), used to decide an inconsistent break. -/
def widthUntilBreak : List Doc → Option Nat
  | [] => some 0
  | .brk _ _ :: _ => some 0
  | .hard _ :: _ => some 0
  | d :: ds => optAdd d.flatW (widthUntilBreak ds)

/-- Target line width of the printing engine. -/
def MARGIN : Nat := 78

/-- Renderer state: output so far, pending indentation (spaces deferred
until the next word, so no line ends in trailing spaces), current column. -/
structure RenderSt where
  out : String
  pend : Nat
  col : Nat

/-- Emit a word: flush pending indentation, append the word. -/
def RenderSt.putWord (st : RenderSt) (s : String) : RenderSt :=
  { out := st.out ++ String.mk (List.replicate st.pend ' ') ++ s,
    pend := 0, col := st.col + s.length }

/-- Emit `n` blanks (a break rendered flat). -/
def RenderSt.putBlank (st : RenderSt) (n : Nat) : RenderSt :=
  { out := st.out, pend := st.pend + n, col := st.col + n }

/-- Emit a newline followed by indentation to column `ind`. -/
def RenderSt.putNewline (st : RenderSt) (ind : Nat) : RenderSt :=
  { out := st.out ++ "\n", pend := ind, col := ind }

/-- Does content of flat width `w` fit on the current line? -/
def fitsIn (st : RenderSt) (w : Option Nat) : Bool :=
  match w with
  | some n => st.col + n ≤ MARGIN
  | none => false

/-- Breaking decision of an enclosing box: it fits on one line, it broke
consistently, or it broke inconsistently. -/
inductive RFrame where
  | fits
  | cons
  | incons

mutual

/-- Render one token.  `frame` is the breaking decision of the directly
enclosing box (`fits`: everything flat; `cons`: every break a newline;
`incons`: break only when the material up to the next break point does not
fit); `ind` is the base indentation for taken breaks; `tailW` is the width
up to the next break point after this token (the lookahead an inconsistent
break is decided by).  A box opens `fits` when its flat width fits on the
current line, and otherwise breaks in its own style, with base indentation
`ind` plus its own indent (block boxes) or the column where it opened
(visual-alignment boxes). -/
def renderDoc : RFrame → Int → Doc → Option Nat → RenderSt → RenderSt
  | _, _, .word s, _, st => st.putWord s
  | frame, ind, .brk blank off, tailW, st =>
      match frame with
      | .fits => st.putBlank blank
      | .cons => st.putNewline (ind + off).toNat
      | .incons =>
          if fitsIn st (optAdd (some blank) tailW) then st.putBlank blank
          else st.putNewline (ind + off).toNat
  | frame, ind, .hard off, _, st =>
      match frame with
      | .fits => st.putBlank 0
      | _ => st.putNewline (ind + off).toNat
  | _, ind, .ibox bind inner, _, st =>
      if fitsIn st (Doc.flatWList inner) then renderList .fits ind inner st
      else renderList .incons (ind + bind) inner st
  | _, ind, .cbox bind inner, _, st =>
      if fitsIn st (Doc.flatWList inner) then renderList .fits ind inner st
      else renderList .cons (ind + bind) inner st
  | _, ind, .vbox inner, _, st =>
      if fitsIn st (Doc.flatWList inner) then renderList .fits ind inner st
      else renderList .cons (Int.ofNat st.col) inner st

/-- Render a token sequence under the enclosing box's frame. -/
def renderList : RFrame → Int → List Doc → RenderSt → RenderSt
  | _, _, [], st => st
  | frame, ind, d :: ds, st =>
      renderList frame ind ds (renderDoc frame ind d (widthUntilBreak ds) st)

end

/-- `PrinterCtx::new` followed by the pushes of `ds` and `finish()`: render
at top level (an implicit inconsistent frame at indentation 0). -/
def renderDocs (ds : List Doc) : String :=
  (renderList .incons 0 ds { out := "", pend := 0, col := 0 }).out

/-! ## `pretty.rs` box helpers -/

/-- `INDENT` in `pretty.rs`: default indentation size. -/
def INDENT : Int := 2

/-- `PrinterCtx::softbreak`: space if fits, otherwise newline. -/
def docSoftbreak : Doc := .brk 1 0

/-- `PrinterCtx::zerobreak`: nothing if fits, otherwise newline. -/
def docZerobreak : Doc := .brk 0 0

/-- `PrinterCtx::hardbreak`: always newline. -/
def docHardbreak : Doc := .hard 0

/-- `PrinterCtx::ibox_delim`: inconsistent box wrapped in delimiter words,
with a padded break after the opening delimiter. -/
def Doc.iboxD (ind : Int) (l r : String) (padding : Nat) (inner : List Doc) : Doc :=
  .ibox ind ([.word l, .brk padding 0] ++ inner ++ [.word r])

/-- `PrinterCtx::cbox_delim`: consistent box wrapped in delimiter words,
with padded breaks inside both delimiters (the closing one de-indented). -/
def Doc.cboxD (ind : Int) (l r : String) (padding : Nat) (inner : List Doc) : Doc :=
  .cbox ind ([.word l, .brk padding 0] ++ inner ++ [.brk padding (-ind), .word r])

/-- `PrinterCtx::valign_delim`: visual-alignment box wrapped in delimiter
words. -/
def Doc.valignD (l r : String) (inner : List Doc) : Doc :=
  .vbox ([.word l] ++ inner ++ [.word r])

/-! ## Declarators, expressions, declarations, statements -/

/-- `print_declarator` in `ty.rs`: the token sequence pushed into the
printer context — the base type name, a separating space when the identifier
or any declarator part follows, then the declarator parts in deque order
(each part's `Print` impl emits one word).  The base type reached by the
loop is always primitive (`declLoop_base_primitive`), so the
`unreachable!()` inside `CTy::to_str` cannot fire; its `none` is defaulted
to the empty string here. -/
def printDeclaratorDocs (ty : CTy) (val : Option CValue) : List Doc :=
  let parts0 : List DeclaratorPart :=
    match val with
    | some v => [.Ident v]
    | none => []
  let r := declLoop ty parts0
  [Doc.word (r.2.to_str.getD "")]
    ++ (if val.isSome || !r.1.isEmpty then [Doc.word " "] else [])
    ++ r.1.map (fun p => Doc.word p.printStr)

/-- `print_declarator` at the level of the final string: a fresh printer
context, the declarator tokens, then `finish()`. -/
def printDeclaratorStr (ty : CTy) (val : Option CValue) : String :=
  renderDocs (printDeclaratorDocs ty val)

/-- `CExprKind` in `expr.rs`. -/
inductive CExprKind where
  | Raw (s : String)
  | Value (v : CValue)
  | Binary (lhs : CExprKind) (rhs : CExprKind) (op : String)
  | Cast (ty : CTy) (e : CExprKind)
  | Call (callee : CExprKind) (args : List CExprKind)
  | Member (e : CExprKind) (arrow : Bool) (field : String)

/-- `ModuleCtx::member` in `expr.rs`: the public member-access constructor,
which always sets `arrow: false`. -/
def memberExpr (e : CExprKind) (field : String) : CExprKind :=
  .Member e false field

mutual

/-- The `Print` impl for `CExpr` in `expr.rs`: each match arm emits exactly
one box or word into the printer context. -/
def printExpr : CExprKind → Doc
  | .Raw s => .word s
  | .Value v => .word v.printStr
  | .Binary lhs rhs op =>
      Doc.iboxD INDENT "(" ")" 0
        [Doc.ibox (-INDENT) [printExpr lhs], docSoftbreak, .word op, .word " ", printExpr rhs]
  | .Cast ty e =>
      .ibox INDENT
        ([Doc.word "("] ++ printDeclaratorDocs ty none
          ++ [Doc.word ")", Doc.word " ", printExpr e])
  | .Call callee args =>
      .ibox INDENT [printExpr callee, Doc.cboxD INDENT "(" ")" 0 (printExprArgs args)]
  | .Member e arrow field =>
      .cbox INDENT
        [printExpr e, docZerobreak, .word (if arrow then "->" else "."), .word field]

/-- `PrinterCtx::seperated(",", args, ..)` on call arguments: first
argument, then `", "`-separated rest (a word then a soft break). -/
def printExprArgs : List CExprKind → List Doc
  | [] => []
  | e :: rest => printExpr e :: printExprArgsTail rest

/-- Tail of `seperated`: each further element is preceded by the separator
word and a soft break (`word_space`). -/
def printExprArgsTail : List CExprKind → List Doc
  | [] => []
  | e :: rest => .word "," :: docSoftbreak :: printExpr e :: printExprArgsTail rest

end

/-- `CDeclKind` in `decl.rs`: variable declarations. -/
inductive CDeclKind where
  | Var (name : CValue) (ty : CTy) (init : Option CExprKind)

/-- The `Print` impl for `CDecl` in `decl.rs`: declarator, optional
`= <init>`, terminating semicolon, inside an inconsistent box. -/
def printDecl : CDeclKind → Doc
  | .Var name ty init =>
      .ibox INDENT
        (printDeclaratorDocs ty (some name)
          ++ (match init with
              | some e => [Doc.word " =", docSoftbreak, printExpr e]
              | none => [])
          ++ [Doc.word ";"])

/-- `CStmtKind` in `stmt.rs`. -/
inductive CStmtKind where
  | Compound (stmts : List CStmtKind)
  | Return (e : Option CExprKind)
  | Decl (d : CDeclKind)
  | Expr (e : CExprKind)

mutual

/-- The `Print` impl for `CStmt` in `stmt.rs` (a statement can emit more
than one token at its level: an expression statement emits the expression
and then the semicolon word). -/
def printStmt : CStmtKind → List Doc
  | .Compound stmts => [Doc.cboxD INDENT "\x7b" "\x7d" 1 (printStmtsSep stmts)]
  | .Return none => [Doc.ibox INDENT [Doc.word "return", Doc.word ";"]]
  | .Return (some e) =>
      [Doc.ibox INDENT [Doc.word "return", docSoftbreak, printExpr e, Doc.word ";"]]
  | .Decl d => [printDecl d]
  | .Expr e => [printExpr e, Doc.word ";"]

/-- The statement list of `print_compound` in `stmt.rs`: first statement,
then each further statement preceded by a hard break. -/
def printStmtsSep : List CStmtKind → List Doc
  | [] => []
  | s :: rest => printStmt s ++ printStmtsTail rest

/-- Tail of `printStmtsSep`. -/
def printStmtsTail : List CStmtKind → List Doc
  | [] => []
  | s :: rest => docHardbreak :: (printStmt s ++ printStmtsTail rest)

end

/-- `print_compound` in `stmt.rs`: a consistent delimited box (braces,
padding 1, indent `INDENT`) containing the statements, each hard-broken
from the next. -/
def printCompound (stmts : List CStmtKind) : Doc :=
  Doc.cboxD INDENT "\x7b" "\x7d" 1 (printStmtsSep stmts)

/-! ## Functions and modules -/

/-- `CFuncKind` in `func.rs`; the `Cell`-held counter and `RefCell`-held
body are plain fields, mutated by state passing. -/
structure CFuncKind where
  name : String
  ty : CTy
  params : List (CTy × CValue)
  body : List CStmtKind
  local_var_counter : Nat

/-- `CFuncKind::new` in `func.rs`: pre-seed the parameters as locals
`0..P-1` and start the fresh-local counter at `P`. -/
def CFuncKind.new (name : String) (ty : CTy) (params : List CTy) : CFuncKind :=
  { name := name, ty := ty,
    params := params.enum.map (fun p => (p.2, CValue.Local p.1)),
    body := [], local_var_counter := params.length }

/-- `CFuncKind::push_stmt` in `func.rs`. -/
def CFuncKind.push_stmt (f : CFuncKind) (s : CStmtKind) : CFuncKind :=
  { f with body := f.body ++ [s] }

/-- `CFuncKind::next_local_var` in `func.rs`: return the counter's local,
then increment the counter. -/
def CFuncKind.next_local_var (f : CFuncKind) : CValue × CFuncKind :=
  (CValue.Local f.local_var_counter,
    { f with local_var_counter := f.local_var_counter + 1 })

/-- `n` successive `next_local_var` calls: the returned values in call
order, and the function state afterwards. -/
def runNextLocals : CFuncKind → Nat → List CValue × CFuncKind
  | f, 0 => ([], f)
  | f, n + 1 =>
      let r := f.next_local_var
      let rest := runNextLocals r.2 n
      (r.1 :: rest.1, rest.2)

/-- `print_signature` in `func.rs`: the `seperated` parameter list, first
parameter then `", "`-separated rest, each inside an `ibox 0` holding its
declarator. -/
def printParamsTail : List (CTy × CValue) → List Doc
  | [] => []
  | p :: rest =>
      .word "," :: docSoftbreak
        :: Doc.ibox 0 (printDeclaratorDocs p.1 (some p.2)) :: printParamsTail rest

/-- Head of the `seperated` parameter list (see `printParamsTail`). -/
def printParams : List (CTy × CValue) → List Doc
  | [] => []
  | p :: rest => Doc.ibox 0 (printDeclaratorDocs p.1 (some p.2)) :: printParamsTail rest

/-- `print_signature` in `func.rs`: return-type declarator around the
function name, then the visually-aligned parenthesized parameter list. -/
def printSignature (f : CFuncKind) : Doc :=
  .ibox 0
    (printDeclaratorDocs f.ty (some (CValue.Func f.name))
      ++ [Doc.valignD "(" ")" (printParams f.params)])

/-- `print_func_decl` in `func.rs`: the signature followed by `;`. -/
def printFuncDecl (f : CFuncKind) : List Doc :=
  [printSignature f, Doc.word ";"]

/-- The `Print` impl for `CFunc` in `func.rs`: signature, soft break,
compound body, inside an inconsistent box. -/
def printFunc (f : CFuncKind) : Doc :=
  .ibox 0 [printSignature f, docSoftbreak, printCompound f.body]

/-- `Module` in `module.rs` (named `CModule` here: `Module` is taken by
Mathlib); the `RefCell`-held lists are plain fields, mutated by state
passing. -/
structure CModule where
  includes : List String
  helper : String
  decls : List CDeclKind
  funcs : List CFuncKind

/-- `Module::new` in `module.rs`. -/
def CModule.new (helper : String) : CModule :=
  { includes := [], helper := helper, decls := [], funcs := [] }

/-- `Module::push_include` in `module.rs`. -/
def CModule.push_include (m : CModule) (inc : String) : CModule :=
  { m with includes := m.includes ++ [inc] }

/-- `Module::push_decl` in `module.rs`. -/
def CModule.push_decl (m : CModule) (d : CDeclKind) : CModule :=
  { m with decls := m.decls ++ [d] }

/-- `Module::push_func` in `module.rs`. -/
def CModule.push_func (m : CModule) (f : CFuncKind) : CModule :=
  { m with funcs := m.funcs ++ [f] }

/-- The include lines of `Module::print_to`: each include emits
`#include <`, the name, `>`, and a hard break. -/
def includeDocs (incs : List String) : List Doc :=
  incs.flatMap (fun inc => [Doc.word "#include <", Doc.word inc, Doc.word ">", docHardbreak])

/-- The top-level declarations of `Module::print_to`: each preceded by two
hard breaks (a blank line). -/
def declDocs (ds : List CDeclKind) : List Doc :=
  ds.flatMap (fun d => [docHardbreak, docHardbreak, printDecl d])

/-- The prototype section of `Module::print_to`: each function's forward
declaration preceded by one hard break, in insertion order. -/
def protoDocs (fs : List CFuncKind) : List Doc :=
  fs.flatMap (fun f => docHardbreak :: printFuncDecl f)

/-- The body section of `Module::print_to`: each function's full definition
preceded by two hard breaks (a blank line), in insertion order. -/
def bodyDocs (fs : List CFuncKind) : List Doc :=
  fs.flatMap (fun f => [docHardbreak, docHardbreak, printFunc f])

/-- The `Print` impl for `Module` in `module.rs`: one consistent box at
indent 0 holding the include lines, a hard break, the helper preamble, the
declarations, all prototypes, all bodies, and a final hard break. -/
def printModule (m : CModule) : Doc :=
  .cbox 0
    (includeDocs m.includes
      ++ [docHardbreak]
      ++ [Doc.word m.helper]
      ++ declDocs m.decls
      ++ protoDocs m.funcs
      ++ bodyDocs m.funcs
      ++ [docHardbreak])

/-- The `Display` impl for `ModuleCtx` in `lib.rs`: a fresh printer
context, `module.print_to`, `finish()`. -/
def emitModule (m : CModule) : String :=
  renderDocs [printModule m]

/-! ## The type interner

Modelled from the spec: the arena/interner behind `declare_arena!` and
`Interned` (`rustc_arena` and `rustc_data_structures`, external to the
repository) is, per §4.1, a find-or-allocate table that compares a new
compound-type value against all previously interned values of that kind and
returns the existing handle on a match, or interns and returns a new one
otherwise.  Handles are indices into the table, so handle equality is
identity equality of the interned allocation. -/

/-- The interner's state: the compound types interned so far, in order. -/
abbrev InternSt := List CTyKind

/-- First index of `k` in the interner table, if present. -/
def findIdxOf (k : CTyKind) : InternSt → Option Nat
  | [] => none
  | x :: xs => if x = k then some 0 else (findIdxOf k xs).map (· + 1)

/-- Find-or-allocate: return the existing handle of a structurally equal
interned value, or append the value and return its fresh handle. -/
def internTy (k : CTyKind) (s : InternSt) : Nat × InternSt :=
  match findIdxOf k s with
  | some i => (i, s)
  | none => (s.length, s ++ [k])

/-! ## Fixtures -/

/-- Module fixture mirroring `tests/module.rs` (`test_module`): one include,
one top-level declaration, and the function `foo` (one `i32` parameter, one
fresh local, three body statements) — extended with a second function `bar`
pushed after `foo`, so that the prototype/body grouping of the emitted text
is observable. -/
def sampleModule : CModule :=
  let m := CModule.new "// helper"
  let m := m.push_include "stdio.h"
  let m := m.push_decl (CDeclKind.Var (CValue.Local 42) (CTy.Int CIntTy.I32) none)
  let foo := CFuncKind.new "foo" (CTy.Int CIntTy.I32) [CTy.Int CIntTy.I32]
  let r := foo.next_local_var
  let foo := r.2
  let x := r.1
  let foo := foo.push_stmt (CStmtKind.Decl (CDeclKind.Var x (CTy.Int CIntTy.I32) none))
  let foo := foo.push_stmt
    (CStmtKind.Expr (CExprKind.Binary (CExprKind.Value x) (CExprKind.Value (CValue.Scalar 1)) "="))
  let foo := foo.push_stmt (CStmtKind.Return (some (CExprKind.Value x)))
  let m := m.push_func foo
  let bar := CFuncKind.new "bar" CTy.Void []
  let bar := bar.push_stmt (CStmtKind.Return none)
  m.push_func bar

/-- Emission with the module state threaded through, for stating that
emitting reads but never modifies the module: the `Display` impl only takes
a shared borrow, so the state passed out is the state passed in. -/
def emitModuleSt (m : CModule) : String × CModule :=
  (emitModule m, m)

/-! ## Supporting lemmas -/

mutual

/-- The base type reached by `print_declarator`'s unwrapping loop is always
primitive, so `CTy::to_str`'s `unreachable!()` cannot fire there. -/
theorem declLoop_base_primitive (ty : CTy) (parts : List DeclaratorPart) :
    ((declLoop ty parts).2).is_primitive = true := by
  cases ty with
  | Ref k => exact declLoopKind_base_primitive k parts
  | Void => rfl
  | Bool => rfl
  | Char => rfl
  | Int t => rfl
  | UInt t => rfl

/-- Companion of `declLoop_base_primitive` on compound layers. -/
theorem declLoopKind_base_primitive (k : CTyKind) (parts : List DeclaratorPart) :
    ((declLoopKind k parts).2).is_primitive = true := by
  cases k with
  | Pointer t =>
      show ((declLoop t _).2).is_primitive = true
      exact declLoop_base_primitive t _
  | Array t dim => exact declLoop_base_primitive t _

end

mutual

/-- A left parenthesis appears among the declarator parts iff it was already
among the seed parts or some pointer layer of the type directly wraps an
array layer. -/
theorem declLoop_mem_Lp (ty : CTy) (parts : List DeclaratorPart) :
    DeclaratorPart.Lp ∈ (declLoop ty parts).1
      ↔ (DeclaratorPart.Lp ∈ parts ∨ ty.hasPtrToArray = true) := by
  cases ty with
  | Ref k =>
      have h := declLoopKind_mem_Lp k parts
      simpa [declLoop, CTy.hasPtrToArray] using h
  | Void => simp [declLoop, CTy.hasPtrToArray]
  | Bool => simp [declLoop, CTy.hasPtrToArray]
  | Char => simp [declLoop, CTy.hasPtrToArray]
  | Int t => simp [declLoop, CTy.hasPtrToArray]
  | UInt t => simp [declLoop, CTy.hasPtrToArray]

/-- Companion of `declLoop_mem_Lp` on compound layers. -/
theorem declLoopKind_mem_Lp (k : CTyKind) (parts : List DeclaratorPart) :
    DeclaratorPart.Lp ∈ (declLoopKind k parts).1
      ↔ (DeclaratorPart.Lp ∈ parts ∨ k.hasPtrToArray = true) := by
  cases k with
  | Pointer t =>
      by_cases ha : t.is_array
      · simp [declLoopKind, ha, CTyKind.hasPtrToArray]
        exact (declLoop_mem_Lp t _).mpr (Or.inl (List.mem_cons_self _ _))
      · have h := declLoop_mem_Lp t (DeclaratorPart.Ptr :: parts)
        simp [declLoopKind, ha, CTyKind.hasPtrToArray, h, or_comm]
  | Array t dim =>
      have h := declLoop_mem_Lp t (parts ++ [DeclaratorPart.ArrayDim dim])
      simp [declLoopKind, CTyKind.hasPtrToArray, h]

end

/-- `declLoopFuel` agrees with `declLoop` whenever the fuel is at least the
type's spine depth: the loop consumes one compound layer per iteration. -/
theorem declLoopFuel_eq (fuel : Nat) (ty : CTy) (parts : List DeclaratorPart)
    (h : ty.spineDepth ≤ fuel) :
    declLoopFuel fuel ty parts = some (declLoop ty parts) := by
  induction fuel generalizing ty parts with
  | zero =>
    cases ty with
    | Ref k => simp [CTy.spineDepth] at h
    | Void => rfl
    | Bool => rfl
    | Char => rfl
    | Int t => rfl
    | UInt t => rfl
  | succ n ih =>
    cases ty with
    | Ref k =>
      cases k with
      | Pointer t =>
        have ht : t.spineDepth ≤ n := by
          simpa [CTy.spineDepth, CTyKind.spineDepth] using h
        simpa [declLoopFuel, declLoop, declLoopKind] using ih t _ ht
      | Array t dim =>
        have ht : t.spineDepth ≤ n := by
          simpa [CTy.spineDepth, CTyKind.spineDepth] using h
        simpa [declLoopFuel, declLoop, declLoopKind] using ih t _ ht
    | Void => rfl
    | Bool => rfl
    | Char => rfl
    | Int t => rfl
    | UInt t => rfl

/-- If `findIdxOf` finds an index, the table holds the sought value there. -/
theorem findIdxOf_get (k : CTyKind) :
    ∀ (s : InternSt) (i : Nat), findIdxOf k s = some i → s[i]? = some k := by
  intro s
  induction s with
  | nil => intro i h; simp [findIdxOf] at h
  | cons x xs ih =>
    intro i h
    by_cases hx : x = k
    · simp [findIdxOf, hx] at h
      simp [← h, hx]
    · simp [findIdxOf, hx] at h
      obtain ⟨j, hj, rfl⟩ := h
      simpa using ih j hj

/-- Appending a value absent from the table makes it findable at the old
length. -/
theorem findIdxOf_append_self (k : CTyKind) :
    ∀ s : InternSt, findIdxOf k s = none → findIdxOf k (s ++ [k]) = some s.length := by
  intro s
  induction s with
  | nil => intro _; simp [findIdxOf]
  | cons x xs ih =>
    intro h
    by_cases hx : x = k
    · simp [findIdxOf, hx] at h
    · simp [findIdxOf, hx] at h ⊢
      rw [ih h]

/-- After interning `k`, `k` is findable exactly at the returned handle. -/
theorem internTy_find (k : CTyKind) (s : InternSt) :
    findIdxOf k (internTy k s).2 = some (internTy k s).1 := by
  cases h : findIdxOf k s with
  | some i => simp [internTy, h]
  | none => simp [internTy, h, findIdxOf_append_self k s h]

/-- After interning `k`, the table holds `k` at the returned handle. -/
theorem internTy_get (k : CTyKind) (s : InternSt) :
    ((internTy k s).2)[(internTy k s).1]? = some k :=
  findIdxOf_get k _ _ (internTy_find k s)

/-- The values returned by `n` successive `next_local_var` calls are the
locals with the `n` consecutive indices starting at the current counter. -/
theorem runNextLocals_spec (f : CFuncKind) (n : Nat) :
    (runNextLocals f n).1 = (List.range' f.local_var_counter n).map CValue.Local := by
  induction n generalizing f with
  | zero => rfl
  | succ n ih =>
    simp [runNextLocals, CFuncKind.next_local_var, List.range', ih]

/-- Tail statements of a compound block: each further statement is preceded
by exactly one hard break, in list order. -/
theorem printStmtsTail_eq_flatMap (l : List CStmtKind) :
    printStmtsTail l = l.flatMap (fun s => docHardbreak :: printStmt s) := by
  induction l with
  | nil => rfl
  | cons s rest ih => simp [printStmtsTail, ih]

/-! ## The claims -/

/-- C1.  Declarator linearization: for every type built from pointer/array
layers over a primitive base and every optional identifier,
`print_declarator` emits the base type name, then a separating space if any
declarator parts follow, then the parts in constructed order; a parenthesis
pair around the accumulated parts appears if and only if a pointer layer
directly wraps an array layer, yielding exactly the concrete strings of the
spec's table (e.g. pointer-to-array[10]-of-i32 named `_3` emits
`"int32_t (*_3)[10]"`, and a bare primitive with no identifier emits just
the type name with no trailing space). -/
theorem declarator_linearization :
    printDeclaratorStr CTy.Void none = "void"
    ∧ printDeclaratorStr (CTy.Int CIntTy.I32) (some (CValue.Local 0)) = "int32_t _0"
    ∧ printDeclaratorStr (CTy.Ref (CTyKind.Pointer (CTy.Int CIntTy.I32))) none
        = "int32_t *"
    ∧ printDeclaratorStr (CTy.Ref (CTyKind.Pointer (CTy.Int CIntTy.I32)))
        (some (CValue.Local 1)) = "int32_t *_1"
    ∧ printDeclaratorStr
        (CTy.Ref (CTyKind.Pointer (CTy.Ref (CTyKind.Pointer (CTy.Int CIntTy.I32))))) none
        = "int32_t **"
    ∧ printDeclaratorStr
        (CTy.Ref (CTyKind.Pointer (CTy.Ref (CTyKind.Pointer (CTy.Int CIntTy.I32)))))
        (some (CValue.Local 2)) = "int32_t **_2"
    ∧ printDeclaratorStr (CTy.Ref (CTyKind.Array (CTy.Int CIntTy.I32) 10)) none
        = "int32_t [10]"
    ∧ printDeclaratorStr (CTy.Ref (CTyKind.Array (CTy.Int CIntTy.I32) 10))
        (some (CValue.Local 2)) = "int32_t _2[10]"
    ∧ printDeclaratorStr
        (CTy.Ref (CTyKind.Pointer (CTy.Ref (CTyKind.Array (CTy.Int CIntTy.I32) 10))))
        (some (CValue.Local 3)) = "int32_t (*_3)[10]"
    ∧ printDeclaratorStr
        (CTy.Ref (CTyKind.Array
          (CTy.Ref (CTyKind.Pointer (CTy.Ref (CTyKind.Array (CTy.Int CIntTy.I32) 5)))) 3))
        (some (CValue.Local 4)) = "int32_t (*_4[3])[5]"
    ∧ (∀ (ty : CTy) (v : CValue),
        DeclaratorPart.Lp ∈ (declLoop ty [DeclaratorPart.Ident v]).1
          ↔ ty.hasPtrToArray = true)
    ∧ (∀ ty : CTy,
        DeclaratorPart.Lp ∈ (declLoop ty []).1 ↔ ty.hasPtrToArray = true) := by
  refine ⟨rfl, rfl, rfl, rfl, rfl, rfl, rfl, rfl, rfl, rfl, ?_, ?_⟩
  · intro ty v
    rw [declLoop_mem_Lp]
    simp
  · intro ty
    rw [declLoop_mem_Lp]
    simp

/-- C5.  Primitive name/macro table: for every integer type, `to_str` and
`max_value` return exactly the C name and limit macro of the spec's fixed
table, and both the signed and the unsigned pointer-sized integer map to
`size_t` and `SIZE_MAX`. -/
theorem primitive_name_macro_table :
    CTy.to_str (CTy.Int CIntTy.Isize) = some "size_t"
    ∧ CTy.max_value (CTy.Int CIntTy.Isize) = some "SIZE_MAX"
    ∧ CTy.to_str (CTy.UInt CUintTy.Usize) = some "size_t"
    ∧ CTy.max_value (CTy.UInt CUintTy.Usize) = some "SIZE_MAX"
    ∧ CTy.to_str (CTy.Int CIntTy.I8) = some "int8_t"
    ∧ CTy.max_value (CTy.Int CIntTy.I8) = some "INT8_MAX"
    ∧ CTy.to_str (CTy.UInt CUintTy.U8) = some "uint8_t"
    ∧ CTy.max_value (CTy.UInt CUintTy.U8) = some "UINT8_MAX"
    ∧ CTy.to_str (CTy.Int CIntTy.I16) = some "int16_t"
    ∧ CTy.max_value (CTy.Int CIntTy.I16) = some "INT16_MAX"
    ∧ CTy.to_str (CTy.UInt CUintTy.U16) = some "uint16_t"
    ∧ CTy.max_value (CTy.UInt CUintTy.U16) = some "UINT16_MAX"
    ∧ CTy.to_str (CTy.Int CIntTy.I32) = some "int32_t"
    ∧ CTy.max_value (CTy.Int CIntTy.I32) = some "INT32_MAX"
    ∧ CTy.to_str (CTy.UInt CUintTy.U32) = some "uint32_t"
    ∧ CTy.max_value (CTy.UInt CUintTy.U32) = some "UINT32_MAX"
    ∧ CTy.to_str (CTy.Int CIntTy.I64) = some "int64_t"
    ∧ CTy.max_value (CTy.Int CIntTy.I64) = some "INT64_MAX"
    ∧ CTy.to_str (CTy.UInt CUintTy.U64) = some "uint64_t"
    ∧ CTy.max_value (CTy.UInt CUintTy.U64) = some "UINT64_MAX" := by
  decide

/-- C6.  `to_unsigned` raises iff: for every type `t`, `CTy::to_unsigned(t)`
is fatal (modelled `none`) if and only if `t` is not a signed integer type;
when `t = Int(w)` it returns `UInt` of the same width (Isize→Usize, I8→U8,
I16→U16, I32→U32, I64→U64). -/
theorem to_unsigned_fatal_iff :
    (∀ t : CTy, t.to_unsigned = none ↔ t.is_signed = false)
    ∧ (∀ w : CIntTy, CTy.to_unsigned (CTy.Int w) = some (CTy.UInt w.to_unsigned))
    ∧ CIntTy.to_unsigned CIntTy.Isize = CUintTy.Usize
    ∧ CIntTy.to_unsigned CIntTy.I8 = CUintTy.U8
    ∧ CIntTy.to_unsigned CIntTy.I16 = CUintTy.U16
    ∧ CIntTy.to_unsigned CIntTy.I32 = CUintTy.U32
    ∧ CIntTy.to_unsigned CIntTy.I64 = CUintTy.U64 := by
  refine ⟨?_, fun w => rfl, rfl, rfl, rfl, rfl, rfl⟩
  intro t
  cases t <;> simp [CTy.to_unsigned, CTy.is_signed]

/-- C10.  `print_declarator` terminates on every input type: each iteration
of its unwrapping loop replaces the current type with a strict structural
subterm (the pointee of a pointer or the element type of an array), so fuel
equal to the type's compound spine depth always suffices, and the
fuel-indexed loop agrees with the total one. -/
theorem print_declarator_terminates :
    (∀ k : CTyKind, (CTyKind.inner k).spineDepth < (CTy.Ref k).spineDepth)
    ∧ ∀ (fuel : Nat) (ty : CTy) (parts : List DeclaratorPart),
        ty.spineDepth ≤ fuel → declLoopFuel fuel ty parts = some (declLoop ty parts) := by
  constructor
  · intro k
    cases k <;> simp [CTyKind.inner, CTy.spineDepth, CTyKind.spineDepth]
  · exact declLoopFuel_eq

/-- Witness for C10 at the pointer-to-array type of the spec's table. -/
theorem print_declarator_terminates_witness :
    CTy.spineDepth
        (CTy.Ref (CTyKind.Pointer (CTy.Ref (CTyKind.Array (CTy.Int CIntTy.I32) 10)))) ≤ 2
    ∧ declLoopFuel 2
          (CTy.Ref (CTyKind.Pointer (CTy.Ref (CTyKind.Array (CTy.Int CIntTy.I32) 10))))
          [DeclaratorPart.Ident (CValue.Local 3)]
        = some (declLoop
            (CTy.Ref (CTyKind.Pointer (CTy.Ref (CTyKind.Array (CTy.Int CIntTy.I32) 10))))
            [DeclaratorPart.Ident (CValue.Local 3)]) :=
  ⟨by decide, print_declarator_terminates.2 2 _ _ (by decide)⟩

/-- Parameter seeding of `CFuncKind::new`: the parameter values are the
locals `0..P-1` in order. -/
theorem new_params_snd (name : String) (rty : CTy) (ptys : List CTy) :
    (CFuncKind.new name rty ptys).params.map Prod.snd
      = (List.range ptys.length).map CValue.Local := by
  show (ptys.enum.map (fun p => (p.2, CValue.Local p.1))).map Prod.snd
      = (List.range ptys.length).map CValue.Local
  rw [List.map_map]
  have h : (List.range ptys.length).map CValue.Local
      = ptys.enum.map (CValue.Local ∘ Prod.fst) := by
    rw [← List.enum_map_fst ptys, List.map_map]
  rw [h]
  rfl

/-- Parameter seeding of `CFuncKind::new`: the parameter types are the
given ones, in order. -/
theorem new_params_fst (name : String) (rty : CTy) (ptys : List CTy) :
    (CFuncKind.new name rty ptys).params.map Prod.fst = ptys := by
  show (ptys.enum.map (fun p => (p.2, CValue.Local p.1))).map Prod.fst = ptys
  rw [List.map_map]
  have h := List.enum_map_snd ptys
  calc ptys.enum.map (Prod.fst ∘ fun p => (p.2, CValue.Local p.1))
      = ptys.enum.map Prod.snd := rfl
    _ = ptys := h

/-- C4.  Local-variable uniqueness: for every function constructed with `P`
parameters, the parameters are pre-seeded as locals `0..P-1` (paired with
the given parameter types in order) and the fresh-local counter starts at
`P`; any sequence of `n` calls to `next_local_var` returns exactly the
locals `P, P+1, ..., P+n-1` in order — pairwise distinct and strictly
increasing, so no index is ever issued twice within one function. -/
theorem local_var_uniqueness (name : String) (rty : CTy) (ptys : List CTy) (n : Nat) :
    (CFuncKind.new name rty ptys).params.map Prod.snd
        = (List.range ptys.length).map CValue.Local
    ∧ (CFuncKind.new name rty ptys).params.map Prod.fst = ptys
    ∧ (CFuncKind.new name rty ptys).local_var_counter = ptys.length
    ∧ (runNextLocals (CFuncKind.new name rty ptys) n).1
        = (List.range' ptys.length n).map CValue.Local
    ∧ ((runNextLocals (CFuncKind.new name rty ptys) n).1).Nodup
    ∧ List.Pairwise (fun a b => ∃ i j, a = CValue.Local i ∧ b = CValue.Local j ∧ i < j)
        (runNextLocals (CFuncKind.new name rty ptys) n).1 := by
  have hrun : (runNextLocals (CFuncKind.new name rty ptys) n).1
      = (List.range' ptys.length n).map CValue.Local := by
    rw [runNextLocals_spec]
    rfl
  refine ⟨new_params_snd name rty ptys, new_params_fst name rty ptys, rfl, hrun, ?_, ?_⟩
  · rw [hrun]
    refine List.Nodup.map ?_ (List.nodup_range' ptys.length n)
    intro a b hab
    injection hab
  · rw [hrun]
    rw [List.pairwise_map]
    refine (List.pairwise_lt_range' ptys.length n).imp ?_
    intro a b hab
    exact ⟨a, b, rfl, rfl, hab⟩

/-- The table after interning is either unchanged (hit) or the old table
with the new value appended (miss). -/
theorem internTy_snd_cases (k : CTyKind) (s : InternSt) :
    (internTy k s).2 = s ∨ (internTy k s).2 = s ++ [k] := by
  cases h : findIdxOf k s with
  | some i => left; simp [internTy, h]
  | none => right; simp [internTy, h]

/-- When lookup hits, the returned handle is the found index. -/
theorem internTy_fst_of_find (k : CTyKind) (s : InternSt) (i : Nat)
    (h : findIdxOf k s = some i) : (internTy k s).1 = i := by
  simp [internTy, h]

/-- C2.  Interning identity: for every two compound types interned in
sequence through the find-or-allocate path, the returned handles are equal
iff the values are structurally equal; in particular two independently
built pointer-to-`i32` values get identical handles, while
pointer-to-`i32` and pointer-to-`i64` get distinct handles. -/
theorem intern_identity :
    (∀ (s : InternSt) (k1 k2 : CTyKind),
        ((internTy k2 (internTy k1 s).2).1 = (internTy k1 s).1) ↔ k1 = k2)
    ∧ (internTy (CTyKind.Pointer (CTy.Int CIntTy.I32))
          ((internTy (CTyKind.Pointer (CTy.Int CIntTy.I32)) []).2)).1
        = (internTy (CTyKind.Pointer (CTy.Int CIntTy.I32)) []).1
    ∧ (internTy (CTyKind.Pointer (CTy.Int CIntTy.I64))
          ((internTy (CTyKind.Pointer (CTy.Int CIntTy.I32)) []).2)).1
        ≠ (internTy (CTyKind.Pointer (CTy.Int CIntTy.I32)) []).1 := by
  refine ⟨?_, by decide, by decide⟩
  intro s k1 k2
  constructor
  · intro h
    have h1 := internTy_get k1 s
    have h2 := internTy_get k2 (internTy k1 s).2
    have hb : (internTy k1 s).1 < (internTy k1 s).2.length := by
      by_contra hge
      rw [List.getElem?_eq_none (Nat.le_of_not_lt hge)] at h1
      exact Option.noConfusion h1
    have hpre : ((internTy k2 (internTy k1 s).2).2)[(internTy k1 s).1]? = some k1 := by
      rcases internTy_snd_cases k2 (internTy k1 s).2 with hc | hc
      · rw [hc]
        exact h1
      · rw [hc, List.getElem?_append, if_pos hb]
        exact h1
    rw [h] at h2
    exact Option.some.inj (hpre.symm.trans h2)
  · rintro rfl
    exact internTy_fst_of_find k1 _ _ (internTy_find k1 s)

/-- C7.  Block emission: a compound statement renders its statements inside
braces with one unit of padding at the braces; each statement after the
first is preceded by exactly one hard break, in list order, with each
statement's tokens kept verbatim (never reordered or deduplicated); for a
two-statement list the rendered text is the two statements newline-separated
inside the braces, in order — shown both on two distinct statements and on
two identical ones (which a deduplicating printer would collapse). -/
theorem block_emission :
    (∀ stmts : List CStmtKind,
        printCompound stmts
          = Doc.cbox INDENT
              ([Doc.word "\x7b", Doc.brk 1 0]
                ++ printStmtsSep stmts
                ++ [Doc.brk 1 (-INDENT), Doc.word "\x7d"]))
    ∧ (∀ (s1 : CStmtKind) (rest : List CStmtKind),
        printStmtsSep (s1 :: rest)
          = printStmt s1 ++ rest.flatMap (fun s => docHardbreak :: printStmt s))
    ∧ renderDocs
        [printCompound
          [CStmtKind.Expr (CExprKind.Call (CExprKind.Value (CValue.Func "foo"))
              [CExprKind.Value (CValue.Scalar 1), CExprKind.Value (CValue.Scalar 2)]),
            CStmtKind.Return (some (CExprKind.Value (CValue.Local 0)))]]
        = "\x7b\n  foo(1, 2);\n  return _0;\n\x7d"
    ∧ renderDocs [printCompound [CStmtKind.Return none, CStmtKind.Return none]]
        = "\x7b\n  return;\n  return;\n\x7d" := by
  refine ⟨fun stmts => rfl, ?_, rfl, rfl⟩
  intro s1 rest
  rw [printStmtsSep, printStmtsTail_eq_flatMap]

/-- C9.  The public member-access constructor `ModuleCtx::member` always
builds the node with `arrow = false`, so member accesses created through the
construction API always print with the `.` operator and never `->`, even
though the node model and printer support `->` (as the `arrow = true`
equation shows). -/
theorem member_always_dot :
    (∀ (e : CExprKind) (field : String), memberExpr e field = CExprKind.Member e false field)
    ∧ (∀ (e : CExprKind) (field : String),
        printExpr (memberExpr e field)
          = Doc.cbox INDENT [printExpr e, docZerobreak, Doc.word ".", Doc.word field])
    ∧ (∀ (e : CExprKind) (field : String),
        printExpr (CExprKind.Member e true field)
          = Doc.cbox INDENT [printExpr e, docZerobreak, Doc.word "->", Doc.word field])
    ∧ renderDocs [printExpr (memberExpr (CExprKind.Value (CValue.Local 0)) "x")] = "_0.x" :=
  ⟨fun _ _ => rfl, fun _ _ => rfl, fun _ _ => rfl, rfl⟩

/-- C3.  Module emission order: printing a module emits each include line,
a blank line, the helper preamble, each top-level declaration preceded by a
blank line, then the prototypes of ALL functions in insertion order, then
the full bodies of ALL functions in insertion order each preceded by a
blank line, ending in a trailing newline; pushing a function appends to the
end of both the prototype group and the body group, so every prototype
precedes every body regardless of push order and each group preserves
insertion order — as the fully rendered sample module (two functions pushed
in order) shows concretely. -/
theorem module_emission_order :
    (∀ m : CModule,
        printModule m
          = Doc.cbox 0
              (includeDocs m.includes
                ++ [docHardbreak]
                ++ [Doc.word m.helper]
                ++ declDocs m.decls
                ++ protoDocs m.funcs
                ++ bodyDocs m.funcs
                ++ [docHardbreak]))
    ∧ (∀ (incs : List String) (inc : String),
        includeDocs (incs ++ [inc])
          = includeDocs incs
              ++ [Doc.word "#include <", Doc.word inc, Doc.word ">", docHardbreak])
    ∧ (∀ (fs : List CFuncKind) (f : CFuncKind),
        protoDocs (fs ++ [f]) = protoDocs fs ++ docHardbreak :: printFuncDecl f)
    ∧ (∀ (fs : List CFuncKind) (f : CFuncKind),
        bodyDocs (fs ++ [f]) = bodyDocs fs ++ [docHardbreak, docHardbreak, printFunc f])
    ∧ (∀ (m : CModule) (f : CFuncKind), (m.push_func f).funcs = m.funcs ++ [f])
    ∧ emitModule sampleModule
        = "#include <stdio.h>\n\n// helper\n\nint32_t _42;\nint32_t foo(int32_t _0);\nvoid bar();\n\nint32_t foo(int32_t _0)\n\x7b\n  int32_t _1;\n  (_1 = 1);\n  return _1;\n\x7d\n\nvoid bar() \x7b return; \x7d\n" := by
  refine ⟨fun m => rfl, ?_, ?_, ?_, fun m f => rfl, rfl⟩
  · intro incs inc
    simp [includeDocs]
  · intro fs f
    simp [protoDocs]
  · intro fs f
    simp [bodyDocs]

/-- C8.  Emission determinism: emission is a pure function of the module
state (the `Display` impl only takes a shared borrow and `print_to` only
`borrow()`s, never mutates), so running emission twice on the same module
state without any mutation between the two runs produces byte-identical
output strings, and the module state after an emission is the state before
it. -/
theorem emission_deterministic :
    (∀ m : CModule, emitModule m = emitModule m)
    ∧ (∀ m : CModule, emitModuleSt m = (emitModule m, m))
    ∧ (∀ m : CModule, (emitModuleSt (emitModuleSt m).2).1 = (emitModuleSt m).1)
    ∧ (emitModuleSt (emitModuleSt sampleModule).2).1 = (emitModuleSt sampleModule).1 :=
  ⟨fun _ => rfl, fun _ => rfl, fun _ => rfl, rfl⟩
